import Mathlib

/-!
A verification development for the patch-finder crawler.

The definitions below are a shallow embedding of the Python sources:

* `src/patchfinder/spiders/default_spider.py` — `DefaultSpider` with
  `start_requests`, `parse`, `parse_debian`, `domain_priority`, `add_patch`.
* `src/patchfinder/spiders/base_spider.py` — `BaseSpider.parse` and its
  callback selection helpers.
* `src/patchfinder.py` — the command-line entry point `spawn_crawler` and
  the `__main__` block.

External collaborators (the scrapy `LxmlLinkExtractor`, `urllib.parse.urlparse`,
the HTML extraction of links, and the output of `DebianParser`) are
parameterised: the spider environment `Env` carries the patch classifier
`entrypoint.is_patch` and the hostname extraction `urlparse(url).hostname`,
pages arrive as lists of already-extracted absolute link strings, and the
Debian parser output arrives as a list of patch items.
-/

namespace PatchFinder

/-- A `Patch` item (`patchfinder/spiders/items.py`): a value with a
`patch_link` and the `reaching_path` it was found on. -/
structure Patch where
  patch_link : String
  reaching_path : String
deriving DecidableEq

/-- One element yielded by a spider parse method: either a `Patch` item or a
scrapy `Request(link, callback=self.parse, priority=priority)` (the callback
is always `self.parse` for requests yielded inside `parse`, so only the URL
and the priority are recorded). -/
inductive ParseOutput where
  | patch (p : Patch)
  | request (url : String) (priority : Nat)
deriving DecidableEq

/-- The external collaborators of `DefaultSpider.parse`:
`is_patch` embeds `entrypoint.is_patch` (returns the patch link for a link
that classifies as a patch, `none` otherwise — in Python, a falsy value), and
`hostname` embeds `urlparse(url).hostname` (`none` when the URL has no host).
Both are missing from `src/` (`entrypoint.py` is not in the repository slice)
and are therefore kept abstract. -/
structure Env where
  is_patch : String → Option String
  hostname : String → Option String

/-- The mutable spider state relevant to `parse`/`parse_debian`:
`patches` is the list `self.patches` of collected patch links,
`patch_limit`, `deny_domains` and `important_domains` are the spider
attributes of the same names (set in `__init__` and never mutated). -/
structure SpiderState where
  patches : List String
  patch_limit : Nat
  deny_domains : List String
  important_domains : List String
deriving DecidableEq

/-- The spider state right after `__init__`: `self.patches = []`, with the
configured limit and domain lists of the run. -/
def initState (patch_limit : Nat) (deny_domains important_domains : List String) :
    SpiderState :=
  ⟨[], patch_limit, deny_domains, important_domains⟩

/-- Embedding of `DefaultSpider.add_patch`: `self.patches.append(patch_link)`. -/
def add_patch (s : SpiderState) (patch_link : String) : SpiderState :=
  { s with patches := s.patches ++ [patch_link] }

/-- Embedding of `DefaultSpider.domain_priority`: `urlparse(url).hostname` is looked up in
`self.important_domains`; `1` on a hit, `0` otherwise (also when the URL has
no hostname: in Python `None in important_domains` is false). -/
def domain_priority (env : Env) (important_domains : List String) (url : String) :
    Nat :=
  match env.hostname url with
  | some domain => if domain ∈ important_domains then 1 else 0
  | none => 0

/-- Whether a link survives the `LxmlLinkExtractor(deny_domains=...)` filter:
links whose hostname is one of the denied domains are dropped before the
`parse` loop ever sees them. -/
def allowedHost (env : Env) (deny_domains : List String) (link : String) : Bool :=
  match env.hostname link with
  | some domain => decide (domain ∉ deny_domains)
  | none => true

/-- The links handed to the `parse` loop:
`LxmlLinkExtractor(deny_domains=self.deny_domains, restrict_xpaths=xpaths)
.extract_links(response)` — the xpath restriction and HTML parsing are the
business of the extractor, so `raw_links` is the list of links it would consider
and the embedding keeps only its deny-domain filtering. The extractor yields
absolute URLs, so the subsequent `response.urljoin` is the identity and is
dropped. -/
def extract_links (env : Env) (deny_domains : List String)
    (raw_links : List String) : List String :=
  raw_links.filter (fun l => allowedHost env deny_domains l)

/-- One iteration of the `for link in links` loop of `DefaultSpider.parse`:

```
patch_link = entrypoint.is_patch(link)
if patch_link and len(self.patches) < self.patch_limit:
    if patch_link not in self.patches:
        ... yield Patch(patch_link, response.url); self.add_patch(patch_link)
elif len(self.patches) < self.patch_limit:
    yield Request(link, callback=self.parse, priority=self.domain_priority(link))
```
-/
def parse_step (env : Env) (reaching_path : String) (s : SpiderState)
    (link : String) : SpiderState × List ParseOutput :=
  match env.is_patch link with
  | some patch_link =>
      if s.patches.length < s.patch_limit then
        if patch_link ∈ s.patches then (s, [])
        else (add_patch s patch_link, [.patch ⟨patch_link, reaching_path⟩])
      else (s, [])
  | none =>
      if s.patches.length < s.patch_limit then
        (s, [.request link (domain_priority env s.important_domains link)])
      else (s, [])

/-- The `for link in links` loop of `DefaultSpider.parse`, threading
`self.patches` and collecting the yielded items/requests in order. -/
def parse_links (env : Env) (reaching_path : String) (s : SpiderState) :
    List String → SpiderState × List ParseOutput
  | [] => (s, [])
  | l :: ls =>
      let r1 := parse_step env reaching_path s l
      let r2 := parse_links env reaching_path r1.1 ls
      (r2.1, r1.2 ++ r2.2)

/-- Embedding of `DefaultSpider.parse` on one response: extract the links (deny-domain
filtered) and run the loop, with `response.url` as the reaching path. -/
def parse (env : Env) (s : SpiderState) (page_url : String)
    (raw_links : List String) : SpiderState × List ParseOutput :=
  parse_links env page_url s (extract_links env s.deny_domains raw_links)

/-- Embedding of `DefaultSpider.parse_debian`: the output of
`DebianParser().parse(self.vuln_id)` (a list of patch items, `debian.py` is
outside the repository slice so it is a parameter) is replayed; every item is
appended to `self.patches` and yielded while `len(self.patches) <
self.patch_limit` — note there is no membership check against
`self.patches` on this path. -/
def parse_debian (s : SpiderState) : List Patch → SpiderState × List ParseOutput
  | [] => (s, [])
  | p :: ps =>
      if s.patches.length < s.patch_limit then
        let r := parse_debian (add_patch s p.patch_link) ps
        (r.1, .patch p :: r.2)
      else parse_debian s ps

/-- One fetched page of a run, as routed by `start_requests`: either an
ordinary page handled by `parse` (its URL and the links the extractor finds
on it) or a Debian security-tracker page handled by `parse_debian` (the
patch items its `DebianParser` produces). -/
inductive PageEvent where
  | ordinary (page_url : String) (raw_links : List String)
  | debianPage (debian_patches : List Patch)
deriving DecidableEq

/-- Whether a page event is handled by the ordinary `parse` callback. -/
def PageEvent.isOrdinary : PageEvent → Bool
  | .ordinary _ _ => true
  | .debianPage _ => false

/-- Handle one fetched page with the matching callback. -/
def handle (env : Env) (s : SpiderState) : PageEvent → SpiderState × List ParseOutput
  | .ordinary u raw => parse env s u raw
  | .debianPage ps => parse_debian s ps

/-- A whole run of the spider: the pages are processed in order against the
shared spider state, and all yielded items/requests are concatenated. -/
def run (env : Env) (s : SpiderState) : List PageEvent → SpiderState × List ParseOutput
  | [] => (s, [])
  | e :: es =>
      let r1 := handle env s e
      let r2 := run env r1.1 es
      (r2.1, r1.2 ++ r2.2)

/-- The number of `Patch` items in an output list. -/
def patchCount (outs : List ParseOutput) : Nat :=
  (outs.filter (fun o => match o with | .patch _ => true | .request _ _ => false)).length

/-- The number of `Patch` items with a given `patch_link` in an output list. -/
def patchLinkCount (outs : List ParseOutput) (v : String) : Nat :=
  (outs.filter (fun o =>
    match o with
    | .patch p => p.patch_link == v
    | .request _ _ => false)).length

/-- Membership indicator: `1` when `v` is in the list, `0` otherwise. Used
to account for at-most-once emission of a given patch link. -/
def memInd (v : String) (l : List String) : Nat :=
  if v ∈ l then 1 else 0

/-- A vulnerability object as consumed by `DefaultSpider.__init__` and
`start_requests`: `vuln_id`, the generic/specific kind, `base_url` and
`entrypoint_URLs` (the spider sets `self.start_urls =
kwargs.get(\x27vuln\x27).entrypoint_URLs`). -/
structure Vuln where
  vuln_id : String
  isGeneric : Bool
  base_url : String
  entrypoint_URLs : List String
deriving DecidableEq

/-- The callback `start_requests` attaches to an initial request. -/
inductive StartCallback where
  | parseCb
  | parseDebianCb
deriving DecidableEq

/-- Embedding of `DefaultSpider.start_requests`: one request per start URL, with
`parse_debian` as callback for Debian security-tracker URLs and `parse`
otherwise. -/
def start_requests (vuln : Vuln) : List (String × StartCallback) :=
  vuln.entrypoint_URLs.map (fun url =>
    if url.startsWith "https://security-tracker.debian.org" then
      (url, StartCallback.parseDebianCb)
    else (url, StartCallback.parseCb))

/-- Modelled from the spec: `context.create_vuln` is not under `src/` (only
its tests and callers are). Per the spec, for a Generic-kind vulnerability
the initial request set has exactly 1 entry equal to `base_url`; since
`start_requests` iterates exactly over `entrypoint_URLs`, a Generic
descriptor produced by `create_vuln` carries `entrypoint_URLs = [base_url]`. -/
def createVulnGeneric (vuln_id base_url : String) : Vuln :=
  ⟨vuln_id, true, base_url, [base_url]⟩

/-- The alias-resolution state of a run. Modelled from the spec:
`determine_aliases` is not under `src/` (only its tests are).
`resolved_aliases` maps identifier strings to their descriptors (keys
unique), `pending_generic` records generic-advisory identifiers already
requested. -/
structure AliasState where
  resolved_aliases : List (String × Vuln)
  pending_generic : List String
deriving DecidableEq

/-- The identifiers extracted from a vulnerability-source page by the
extraction rules of the page type: specific (alias) identifiers and
generic-advisory identifiers. -/
structure AliasPage where
  specific_ids : List String
  generic_ids : List String
deriving DecidableEq

/-- The keys of the resolved-alias mapping. -/
def AliasState.resolvedIds (st : AliasState) : List String :=
  st.resolved_aliases.map Prod.fst

/-- Modelled from the spec: step 2 of `determine_aliases` — each extracted
alias identifier not already present in `resolved_aliases` is resolved via
the registry and recorded; no fetch request is emitted for it. -/
def record_aliases (resolve : String → Vuln) (st : AliasState) :
    List String → AliasState
  | [] => st
  | i :: is =>
      if i ∈ st.resolvedIds then record_aliases resolve st is
      else
        record_aliases resolve
          { st with resolved_aliases := st.resolved_aliases ++ [(i, resolve i)] } is

/-- Modelled from the spec: step 3 of `determine_aliases` — each extracted
generic-advisory identifier not already in `pending_generic` is added there
and one fetch request for its descriptor base URL is emitted. -/
def request_generics (resolve : String → Vuln) (st : AliasState) :
    List String → AliasState × List String
  | [] => (st, [])
  | g :: gs =>
      if g ∈ st.pending_generic then request_generics resolve st gs
      else
        let r := request_generics resolve
          { st with pending_generic := st.pending_generic ++ [g] } gs
        (r.1, (resolve g).base_url :: r.2)

/-- Modelled from the spec: `DefaultSpider.determine_aliases` is not under
`src/` (only its test `test_spider.py` is). Given the identifiers extracted
from a fetched vulnerability-source page, it records not-yet-seen aliases in
`resolved_aliases` (emitting nothing for them) and emits one fetch request
per not-yet-pending generic advisory, per spec §4.3. The registry `resolve`
is a deterministic parameter. -/
def determine_aliases (resolve : String → Vuln) (st : AliasState)
    (page : AliasPage) : AliasState × List String :=
  let st1 := record_aliases resolve st page.specific_ids
  request_generics resolve st1 page.generic_ids

/-- The observable outcome of running `src/patchfinder.py` on a
vulnerability id: whether a crawl was started, the message printed by the
`__main__` block, and the interpreter exit status. `context.create_vuln` is
parameterised by its result (`none` embeds a falsy return for an
unrecognized identifier, upon which `spawn_crawler` returns `False` before
any `CrawlerProcess` is created). The script never calls `sys.exit`, so the
interpreter exits with status 0 on both paths. -/
def patchfinder_main (created_vuln : Option Vuln) : Bool × String × Nat :=
  match created_vuln with
  | none => (false, "Can\x27t recognize that vulnerability.", 0)
  | some _ => (true, "Crawling completed.", 0)

/-- The two parse callbacks `BaseSpider._callback_by_content` can select. -/
inductive ParseCallback where
  | jsonCb
  | defaultCb
deriving DecidableEq

/-- A fetched response as seen by `BaseSpider.parse`: its URL, the
`Content-Type` header when present, and its body. -/
structure HttpResponse where
  url : String
  content_type : Option String
  body : String
deriving DecidableEq

/-- Embedding of `BaseSpider._callback_by_url`: the base class always returns `None`
(subclasses may override). -/
def callback_by_url (_ : HttpResponse) : Option ParseCallback :=
  none

/-- Embedding of `BaseSpider._callback_by_content`: `None` when the headers hold no
`Content-Type`; `parse_json` when it starts with `application/json`,
`parse_default` otherwise. -/
def callback_by_content (r : HttpResponse) : Option ParseCallback :=
  match r.content_type with
  | none => none
  | some ct =>
      if ct.startsWith "application/json" then some ParseCallback.jsonCb
      else some ParseCallback.defaultCb

/-- Embedding of `BaseSpider._callback`: the URL-based callback, falling back to the
content-type-based one when it is `None`. -/
def base_callback (r : HttpResponse) : Option ParseCallback :=
  match callback_by_url r with
  | some cb => some cb
  | none => callback_by_content r

/-- The external collaborators of `BaseSpider`: the xpath scrape of a
response (`Resource.get_resource(url).normal_xpaths` lives outside the
slice) and the JSON-to-XML transcoding of `parse_json`. -/
structure BaseEnv where
  scrape : HttpResponse → List String
  json_to_xml : HttpResponse → HttpResponse

/-- Embedding of `BaseSpider.parse`: resolve the callback; when it is `None` the
generator yields nothing, otherwise the selected parse method scrapes the
(possibly transcoded) response. -/
def base_parse (benv : BaseEnv) (r : HttpResponse) : List String :=
  match base_callback r with
  | none => []
  | some ParseCallback.jsonCb => benv.scrape (benv.json_to_xml r)
  | some ParseCallback.defaultCb => benv.scrape r

/-- A concrete instantiation of the external collaborators, used to evaluate
the theorems on concrete inputs: the links "p1" and "p2" classify as
patches (as their own URL), "d1" lives on the denied host "bad.com", "i1"
on the prioritised host "imp.com", and everything else on "ok.com". -/
def demoEnv : Env where
  is_patch := fun l => if l = "p1" then some "p1" else if l = "p2" then some "p2" else none
  hostname := fun l =>
    if l = "d1" then some "bad.com" else if l = "i1" then some "imp.com" else some "ok.com"

/-- A concrete instantiation of the `BaseSpider` collaborators, used to
evaluate theorems on concrete inputs: scraping returns the body as a single
item and JSON transcoding is the identity. -/
def demoBaseEnv : BaseEnv where
  scrape := fun r => [r.body]
  json_to_xml := fun r => r

/-- A state relation recording what `parse`/`parse_debian` can do to the
spider state: the patch list only grows by appending, and the run
configuration (`patch_limit`, `deny_domains`, `important_domains`) is
untouched. -/
def StateExtends (s s' : SpiderState) : Prop :=
  (∃ t, s'.patches = s.patches ++ t) ∧
    s'.patch_limit = s.patch_limit ∧
    s'.deny_domains = s.deny_domains ∧
    s'.important_domains = s.important_domains

/-! ## Basic lemmas about the embedded operations -/

theorem stateExtends_refl (s : SpiderState) : StateExtends s s :=
  ⟨⟨[], (List.append_nil _).symm⟩, rfl, rfl, rfl⟩

theorem stateExtends_trans {s1 s2 s3 : SpiderState}
    (h : StateExtends s1 s2) (h' : StateExtends s2 s3) : StateExtends s1 s3 := by
  obtain ⟨⟨t, ht⟩, hl, hd, hi⟩ := h
  obtain ⟨⟨t', ht'⟩, hl', hd', hi'⟩ := h'
  exact ⟨⟨t ++ t', by rw [ht', ht, List.append_assoc]⟩,
    hl'.trans hl, hd'.trans hd, hi'.trans hi⟩

theorem stateExtends_mem {s s' : SpiderState} (h : StateExtends s s')
    {v : String} (hv : v ∈ s.patches) : v ∈ s'.patches := by
  obtain ⟨⟨t, ht⟩, -, -, -⟩ := h
  rw [ht]
  exact List.mem_append_left _ hv

theorem stateExtends_len {s s' : SpiderState} (h : StateExtends s s') :
    s.patches.length ≤ s'.patches.length := by
  obtain ⟨⟨t, ht⟩, -, -, -⟩ := h
  rw [ht]
  simp

theorem add_patch_extends (s : SpiderState) (v : String) :
    StateExtends s (add_patch s v) :=
  ⟨⟨[v], rfl⟩, rfl, rfl, rfl⟩

theorem parse_links_nil (env : Env) (u : String) (s : SpiderState) :
    parse_links env u s [] = (s, []) := rfl

theorem parse_links_cons (env : Env) (u : String) (s : SpiderState)
    (l : String) (ls : List String) :
    parse_links env u s (l :: ls) =
      ((parse_links env u (parse_step env u s l).1 ls).1,
        (parse_step env u s l).2 ++
          (parse_links env u (parse_step env u s l).1 ls).2) := rfl

theorem run_nil (env : Env) (s : SpiderState) : run env s [] = (s, []) := rfl

theorem run_cons (env : Env) (s : SpiderState) (e : PageEvent) (es : List PageEvent) :
    run env s (e :: es) =
      ((run env (handle env s e).1 es).1,
        (handle env s e).2 ++ (run env (handle env s e).1 es).2) := rfl

theorem parse_step_extends (env : Env) (u : String) (s : SpiderState) (l : String) :
    StateExtends s (parse_step env u s l).1 := by
  rcases h : env.is_patch l with - | w <;> simp only [parse_step, h]
  · split
    · exact stateExtends_refl s
    · exact stateExtends_refl s
  · split
    · split
      · exact stateExtends_refl s
      · exact add_patch_extends s w
    · exact stateExtends_refl s

theorem parse_links_extends (env : Env) (u : String) (s : SpiderState)
    (ls : List String) : StateExtends s (parse_links env u s ls).1 := by
  induction ls generalizing s with
  | nil => exact stateExtends_refl s
  | cons l ls ih =>
      rw [parse_links_cons]
      exact stateExtends_trans (parse_step_extends env u s l) (ih _)

theorem parse_debian_extends (s : SpiderState) (ps : List Patch) :
    StateExtends s (parse_debian s ps).1 := by
  induction ps generalizing s with
  | nil => exact stateExtends_refl s
  | cons p ps ih =>
      show StateExtends s (parse_debian s (p :: ps)).1
      unfold parse_debian
      split
      · exact stateExtends_trans (add_patch_extends s p.patch_link) (ih _)
      · exact ih s

theorem parse_extends (env : Env) (s : SpiderState) (u : String)
    (raw : List String) : StateExtends s (parse env s u raw).1 :=
  parse_links_extends env u s _

theorem handle_extends (env : Env) (s : SpiderState) (e : PageEvent) :
    StateExtends s (handle env s e).1 := by
  cases e with
  | ordinary u raw => exact parse_extends env s u raw
  | debianPage ps => exact parse_debian_extends s ps

theorem run_extends (env : Env) (s : SpiderState) (es : List PageEvent) :
    StateExtends s (run env s es).1 := by
  induction es generalizing s with
  | nil => exact stateExtends_refl s
  | cons e es ih =>
      rw [run_cons]
      exact stateExtends_trans (handle_extends env s e) (ih _)

theorem parse_links_cons_fst (env : Env) (u : String) (s : SpiderState)
    (l : String) (ls : List String) :
    (parse_links env u s (l :: ls)).1 =
      (parse_links env u (parse_step env u s l).1 ls).1 := rfl

theorem parse_links_cons_snd (env : Env) (u : String) (s : SpiderState)
    (l : String) (ls : List String) :
    (parse_links env u s (l :: ls)).2 =
      (parse_step env u s l).2 ++
        (parse_links env u (parse_step env u s l).1 ls).2 := rfl

theorem run_cons_fst (env : Env) (s : SpiderState) (e : PageEvent)
    (es : List PageEvent) :
    (run env s (e :: es)).1 = (run env (handle env s e).1 es).1 := rfl

theorem run_cons_snd (env : Env) (s : SpiderState) (e : PageEvent)
    (es : List PageEvent) :
    (run env s (e :: es)).2 =
      (handle env s e).2 ++ (run env (handle env s e).1 es).2 := rfl

/-! ## Limit invariants and the stop behaviour -/

theorem parse_step_len_le (env : Env) (u : String) (s : SpiderState) (l : String)
    (h : s.patches.length ≤ s.patch_limit) :
    (parse_step env u s l).1.patches.length ≤ s.patch_limit := by
  rcases hp : env.is_patch l with - | w <;> simp only [parse_step, hp]
  · split
    · exact h
    · exact h
  · split
    · split
      · exact h
      · next hlt _ =>
          simp only [add_patch, List.length_append, List.length_singleton]
          omega
    · exact h

theorem parse_links_len_le (env : Env) (u : String) (s : SpiderState)
    (ls : List String) (h : s.patches.length ≤ s.patch_limit) :
    (parse_links env u s ls).1.patches.length ≤ s.patch_limit := by
  induction ls generalizing s with
  | nil => exact h
  | cons l ls ih =>
      rw [parse_links_cons_fst]
      have hlim : (parse_step env u s l).1.patch_limit = s.patch_limit :=
        (parse_step_extends env u s l).2.1
      have h1 := parse_step_len_le env u s l h
      have h2 := ih (parse_step env u s l).1 (by rw [hlim]; exact h1)
      rwa [hlim] at h2

theorem parse_debian_len_le (s : SpiderState) (ps : List Patch)
    (h : s.patches.length ≤ s.patch_limit) :
    (parse_debian s ps).1.patches.length ≤ s.patch_limit := by
  induction ps generalizing s with
  | nil => exact h
  | cons p ps ih =>
      show (parse_debian s (p :: ps)).1.patches.length ≤ s.patch_limit
      unfold parse_debian
      split
      · next hlt =>
          exact ih (add_patch s p.patch_link)
            (by simp only [add_patch, List.length_append, List.length_singleton]; omega)
      · exact ih s h

theorem handle_len_le (env : Env) (s : SpiderState) (e : PageEvent)
    (h : s.patches.length ≤ s.patch_limit) :
    (handle env s e).1.patches.length ≤ s.patch_limit := by
  cases e with
  | ordinary u raw => exact parse_links_len_le env u s _ h
  | debianPage ps => exact parse_debian_len_le s ps h

theorem run_len_le (env : Env) (s : SpiderState) (es : List PageEvent)
    (h : s.patches.length ≤ s.patch_limit) :
    (run env s es).1.patches.length ≤ s.patch_limit := by
  induction es generalizing s with
  | nil => exact h
  | cons e es ih =>
      rw [run_cons_fst]
      have hlim : (handle env s e).1.patch_limit = s.patch_limit :=
        (handle_extends env s e).2.1
      have h1 := handle_len_le env s e h
      have h2 := ih (handle env s e).1 (by rw [hlim]; exact h1)
      rwa [hlim] at h2

theorem parse_step_stop (env : Env) (u : String) (s : SpiderState) (l : String)
    (h : s.patch_limit ≤ s.patches.length) : parse_step env u s l = (s, []) := by
  have hnlt : ¬ s.patches.length < s.patch_limit := not_lt.mpr h
  rcases hp : env.is_patch l with - | w <;> simp [parse_step, hp, hnlt]

theorem parse_links_stop (env : Env) (u : String) (s : SpiderState)
    (ls : List String) (h : s.patch_limit ≤ s.patches.length) :
    parse_links env u s ls = (s, []) := by
  induction ls with
  | nil => rfl
  | cons l ls ih =>
      rw [parse_links_cons, parse_step_stop env u s l h]
      simpa using ih

theorem parse_debian_stop (s : SpiderState) (ps : List Patch)
    (h : s.patch_limit ≤ s.patches.length) : parse_debian s ps = (s, []) := by
  induction ps with
  | nil => rfl
  | cons p ps ih =>
      show parse_debian s (p :: ps) = (s, [])
      unfold parse_debian
      rw [if_neg (not_lt.mpr h)]
      exact ih

/-! ## Counting emitted patches -/

theorem patchCount_append (a b : List ParseOutput) :
    patchCount (a ++ b) = patchCount a + patchCount b := by
  simp [patchCount, List.filter_append]

theorem patchLinkCount_append (a b : List ParseOutput) (v : String) :
    patchLinkCount (a ++ b) v = patchLinkCount a v + patchLinkCount b v := by
  simp [patchLinkCount, List.filter_append]

theorem parse_step_len_eq (env : Env) (u : String) (s : SpiderState) (l : String) :
    (parse_step env u s l).1.patches.length =
      s.patches.length + patchCount (parse_step env u s l).2 := by
  rcases hp : env.is_patch l with - | w
  · simp only [parse_step, hp]
    split <;> simp [patchCount]
  · simp only [parse_step, hp]
    split
    · split <;> simp [patchCount, add_patch]
    · simp [patchCount]

theorem parse_links_len_eq (env : Env) (u : String) (s : SpiderState)
    (ls : List String) :
    (parse_links env u s ls).1.patches.length =
      s.patches.length + patchCount (parse_links env u s ls).2 := by
  induction ls generalizing s with
  | nil => simp [parse_links_nil, patchCount]
  | cons l ls ih =>
      rw [parse_links_cons_fst, parse_links_cons_snd, patchCount_append,
        ih (parse_step env u s l).1, parse_step_len_eq]
      omega

theorem parse_step_plc (env : Env) (u : String) (s : SpiderState) (l : String)
    (v : String) :
    patchLinkCount (parse_step env u s l).2 v + memInd v s.patches ≤
      memInd v (parse_step env u s l).1.patches := by
  have hle : memInd v s.patches ≤ memInd v s.patches := le_refl _
  rcases hp : env.is_patch l with - | w
  · simp only [parse_step, hp]
    split
    · simp [patchLinkCount]
    · simp [patchLinkCount]
  · simp only [parse_step, hp]
    split
    · split
      · simp [patchLinkCount]
      · next hlt hnin =>
          show patchLinkCount [ParseOutput.patch ⟨w, u⟩] v + memInd v s.patches ≤
            memInd v (add_patch s w).patches
          by_cases hv : w = v
          · subst hv
            have e1 : patchLinkCount [ParseOutput.patch ⟨w, u⟩] w = 1 := by
              simp [patchLinkCount]
            have e2 : memInd w s.patches = 0 := by simp [memInd, hnin]
            have e3 : memInd w (add_patch s w).patches = 1 := by
              simp [memInd, add_patch]
            rw [e1, e2, e3]
          · have e1 : patchLinkCount [ParseOutput.patch ⟨w, u⟩] v = 0 := by
              simp [patchLinkCount, hv]
            have e3 : memInd v (add_patch s w).patches = memInd v s.patches := by
              have hvw : ¬ v = w := fun hh => hv hh.symm
              simp [memInd, add_patch, hvw]
            rw [e1, e3]
            omega
    · simp [patchLinkCount]

theorem parse_links_plc (env : Env) (u : String) (s : SpiderState)
    (ls : List String) (v : String) :
    patchLinkCount (parse_links env u s ls).2 v + memInd v s.patches ≤
      memInd v (parse_links env u s ls).1.patches := by
  induction ls generalizing s with
  | nil => simp [parse_links_nil, patchLinkCount]
  | cons l ls ih =>
      rw [parse_links_cons_fst, parse_links_cons_snd, patchLinkCount_append]
      have h1 := parse_step_plc env u s l v
      have h2 := ih (parse_step env u s l).1
      omega

theorem run_plc_ordinary (env : Env) (s : SpiderState) (es : List PageEvent)
    (v : String) (h : ∀ e ∈ es, e.isOrdinary = true) :
    patchLinkCount (run env s es).2 v + memInd v s.patches ≤
      memInd v (run env s es).1.patches := by
  induction es generalizing s with
  | nil => simp [run_nil, patchLinkCount]
  | cons e es ih =>
      rw [run_cons_fst, run_cons_snd, patchLinkCount_append]
      have h1 : patchLinkCount (handle env s e).2 v + memInd v s.patches ≤
          memInd v (handle env s e).1.patches := by
        cases e with
        | ordinary u raw => exact parse_links_plc env u s _ v
        | debianPage ps =>
            exact absurd (h _ (List.mem_cons_self _ _)) (by simp [PageEvent.isOrdinary])
      have h2 := ih (handle env s e).1 (fun e' he' => h e' (List.mem_cons_of_mem _ he'))
      omega

theorem memInd_le_one (v : String) (l : List String) : memInd v l ≤ 1 := by
  unfold memInd
  split <;> omega

/-! ## Per-link behaviour of the parse loop -/

theorem parse_links_processed (env : Env) (u : String) (s : SpiderState)
    (ls : List String) {l p : String} (hl : l ∈ ls)
    (hp : env.is_patch l = some p) :
    p ∈ (parse_links env u s ls).1.patches ∨
      (parse_links env u s ls).1.patch_limit ≤
        (parse_links env u s ls).1.patches.length := by
  induction ls generalizing s with
  | nil => cases hl
  | cons a as ih =>
      rw [parse_links_cons_fst]
      rcases List.mem_cons.mp hl with rfl | hmem
      · by_cases hlt : s.patches.length < s.patch_limit
        · have hmem1 : p ∈ (parse_step env u s l).1.patches := by
            simp only [parse_step, hp, if_pos hlt]
            split
            · next hin => exact hin
            · simp [add_patch]
          exact Or.inl (stateExtends_mem (parse_links_extends env u _ as) hmem1)
        · right
          have hle : s.patch_limit ≤ s.patches.length := not_lt.mp hlt
          have hext : StateExtends s (parse_links env u (parse_step env u s l).1 as).1 :=
            stateExtends_trans (parse_step_extends env u s l)
              (parse_links_extends env u _ as)
          have hlim := hext.2.1
          have hlen := stateExtends_len hext
          omega
      · exact ih (parse_step env u s a).1 hmem

theorem parse_step_only_patches (env : Env) (u : String) (s : SpiderState)
    {l p : String} (hp : env.is_patch l = some p) :
    ∀ o ∈ (parse_step env u s l).2, ∃ q, o = ParseOutput.patch q := by
  simp only [parse_step, hp]
  split
  · split
    · intro o ho
      cases ho
    · intro o ho
      rw [List.mem_singleton] at ho
      exact ⟨_, ho⟩
  · intro o ho
    cases ho

theorem parse_links_only_patches (env : Env) (u : String) (s : SpiderState)
    (ls : List String) (hall : ∀ l ∈ ls, ∃ p, env.is_patch l = some p) :
    ∀ o ∈ (parse_links env u s ls).2, ∃ q, o = ParseOutput.patch q := by
  induction ls generalizing s with
  | nil =>
      intro o ho
      cases ho
  | cons a as ih =>
      intro o ho
      rw [parse_links_cons_snd] at ho
      rcases List.mem_append.mp ho with h1 | h2
      · obtain ⟨p, hp⟩ := hall a (List.mem_cons_self a as)
        exact parse_step_only_patches env u s hp o h1
      · exact ih (parse_step env u s a).1
          (fun l hl => hall l (List.mem_cons_of_mem a hl)) o h2

theorem length_eq_patchCount_of_only_patches (outs : List ParseOutput)
    (h : ∀ o ∈ outs, ∃ q, o = ParseOutput.patch q) :
    outs.length = patchCount outs := by
  induction outs with
  | nil => rfl
  | cons o os ih =>
      obtain ⟨q, rfl⟩ := h o (List.mem_cons_self o os)
      have := ih (fun o' ho' => h o' (List.mem_cons_of_mem _ ho'))
      simp [patchCount] at this ⊢
      omega

theorem parse_links_request_mem (env : Env) (u : String) (s : SpiderState)
    (ls : List String) {l : String} {p : Nat}
    (h : ParseOutput.request l p ∈ (parse_links env u s ls).2) :
    l ∈ ls ∧ p = domain_priority env s.important_domains l := by
  induction ls generalizing s with
  | nil => cases h
  | cons a as ih =>
      rw [parse_links_cons_snd] at h
      rcases List.mem_append.mp h with h1 | h2
      · rcases hp : env.is_patch a with - | w
        · simp only [parse_step, hp] at h1
          split at h1
          · rw [List.mem_singleton] at h1
            obtain ⟨h3, h4⟩ := ParseOutput.request.inj h1
            constructor
            · rw [h3]
              exact List.mem_cons_self a as
            · rw [h4, h3]
          · cases h1
        · simp only [parse_step, hp] at h1
          split at h1
          · split at h1
            · cases h1
            · rw [List.mem_singleton] at h1
              cases h1
          · cases h1
      · have hres := ih (parse_step env u s a).1 h2
        have himp : (parse_step env u s a).1.important_domains = s.important_domains :=
          (parse_step_extends env u s a).2.2.2
        rw [himp] at hres
        exact ⟨List.mem_cons_of_mem a hres.1, hres.2⟩

theorem parse_links_patch_origin (env : Env) (u : String) (s : SpiderState)
    (ls : List String) {q : Patch}
    (h : ParseOutput.patch q ∈ (parse_links env u s ls).2) :
    ∃ l ∈ ls, env.is_patch l = some q.patch_link ∧ q.reaching_path = u := by
  induction ls generalizing s with
  | nil => cases h
  | cons a as ih =>
      rw [parse_links_cons_snd] at h
      rcases List.mem_append.mp h with h1 | h2
      · rcases hp : env.is_patch a with - | w
        · simp only [parse_step, hp] at h1
          split at h1
          · rw [List.mem_singleton] at h1
            cases h1
          · cases h1
        · simp only [parse_step, hp] at h1
          split at h1
          · split at h1
            · cases h1
            · rw [List.mem_singleton] at h1
              obtain rfl := (ParseOutput.patch.inj h1)
              exact ⟨a, List.mem_cons_self a as, hp, rfl⟩
          · cases h1
      · obtain ⟨l, hl, hres⟩ := ih (parse_step env u s a).1 h2
        exact ⟨l, List.mem_cons_of_mem a hl, hres⟩

theorem two_mem_le_length {l : List String} {a b : String}
    (ha : a ∈ l) (hb : b ∈ l) (hab : a ≠ b) : 2 ≤ l.length := by
  have hsub : ({a, b} : Finset String) ⊆ l.toFinset := by
    intro x hx
    rcases Finset.mem_insert.mp hx with rfl | hx
    · exact List.mem_toFinset.mpr ha
    · rw [Finset.mem_singleton] at hx
      subst hx
      exact List.mem_toFinset.mpr hb
  calc 2 = ({a, b} : Finset String).card := (Finset.card_pair hab).symm
    _ ≤ l.toFinset.card := Finset.card_le_card hsub
    _ ≤ l.length := l.toFinset_card_le

theorem extract_links_no_deny (env : Env) (raw : List String) :
    extract_links env [] raw = raw := by
  unfold extract_links
  apply List.filter_eq_self.mpr
  intro l _
  unfold allowedHost
  cases env.hostname l <;> simp

/-! ## Alias resolution -/

theorem record_aliases_pending (resolve : String → Vuln) (st : AliasState)
    (ids : List String) :
    (record_aliases resolve st ids).pending_generic = st.pending_generic := by
  induction ids generalizing st with
  | nil => rfl
  | cons a as ih =>
      show (record_aliases resolve st (a :: as)).pending_generic = _
      unfold record_aliases
      split
      · exact ih st
      · exact ih _

theorem record_aliases_mono (resolve : String → Vuln) (st : AliasState)
    (ids : List String) {i : String} (h : i ∈ st.resolvedIds) :
    i ∈ (record_aliases resolve st ids).resolvedIds := by
  induction ids generalizing st with
  | nil => exact h
  | cons a as ih =>
      show i ∈ (record_aliases resolve st (a :: as)).resolvedIds
      unfold record_aliases
      split
      · exact ih st h
      · apply ih
        simp only [AliasState.resolvedIds, List.map_append] at h ⊢
        exact List.mem_append_left _ h

theorem record_aliases_all (resolve : String → Vuln) (st : AliasState)
    (ids : List String) : ∀ i ∈ ids, i ∈ (record_aliases resolve st ids).resolvedIds := by
  induction ids generalizing st with
  | nil =>
      intro i hi
      cases hi
  | cons a as ih =>
      intro i hi
      show i ∈ (record_aliases resolve st (a :: as)).resolvedIds
      unfold record_aliases
      rcases List.mem_cons.mp hi with rfl | hmem
      · split
        · next hin => exact record_aliases_mono resolve st as hin
        · apply record_aliases_mono
          simp [AliasState.resolvedIds]
      · split
        · exact ih st i hmem
        · exact ih _ i hmem

theorem record_aliases_noop (resolve : String → Vuln) (st : AliasState)
    (ids : List String) (h : ∀ i ∈ ids, i ∈ st.resolvedIds) :
    record_aliases resolve st ids = st := by
  induction ids with
  | nil => rfl
  | cons a as ih =>
      show record_aliases resolve st (a :: as) = st
      unfold record_aliases
      rw [if_pos (h a (List.mem_cons_self a as))]
      exact ih (fun i hi => h i (List.mem_cons_of_mem a hi))

theorem request_generics_resolved (resolve : String → Vuln) (st : AliasState)
    (gs : List String) :
    (request_generics resolve st gs).1.resolved_aliases = st.resolved_aliases := by
  induction gs generalizing st with
  | nil => rfl
  | cons g gs ih =>
      show (request_generics resolve st (g :: gs)).1.resolved_aliases = _
      unfold request_generics
      split
      · exact ih st
      · exact ih _

theorem request_generics_mono (resolve : String → Vuln) (st : AliasState)
    (gs : List String) {g : String} (h : g ∈ st.pending_generic) :
    g ∈ (request_generics resolve st gs).1.pending_generic := by
  induction gs generalizing st with
  | nil => exact h
  | cons a as ih =>
      show g ∈ (request_generics resolve st (a :: as)).1.pending_generic
      unfold request_generics
      split
      · exact ih st h
      · apply ih
        exact List.mem_append_left _ h

theorem request_generics_all (resolve : String → Vuln) (st : AliasState)
    (gs : List String) :
    ∀ g ∈ gs, g ∈ (request_generics resolve st gs).1.pending_generic := by
  induction gs generalizing st with
  | nil =>
      intro g hg
      cases hg
  | cons a as ih =>
      intro g hg
      show g ∈ (request_generics resolve st (a :: as)).1.pending_generic
      unfold request_generics
      rcases List.mem_cons.mp hg with rfl | hmem
      · split
        · next hin => exact request_generics_mono resolve st as hin
        · apply request_generics_mono
          exact List.mem_append_right _ (List.mem_singleton_self g)
      · split
        · exact ih st g hmem
        · exact ih _ g hmem

theorem request_generics_noop (resolve : String → Vuln) (st : AliasState)
    (gs : List String) (h : ∀ g ∈ gs, g ∈ st.pending_generic) :
    request_generics resolve st gs = (st, []) := by
  induction gs with
  | nil => rfl
  | cons a as ih =>
      show request_generics resolve st (a :: as) = (st, [])
      unfold request_generics
      rw [if_pos (h a (List.mem_cons_self a as))]
      exact ih (fun g hg => h g (List.mem_cons_of_mem a hg))

/-! ## The claims -/

/-- C1: for every run of the spider, the number of collected patches
(`len(self.patches)`) never exceeds `patch_limit`; once
`len(self.patches) >= patch_limit` holds, `DefaultSpider.parse` emits no
further `Patch` items and no further `Request`s for any subsequent link or
page (it returns the state unchanged and yields nothing); and with
`patch_limit = 2`, a page offering at least 2 (distinct) patch links yields
exactly 2 collected-patch results in total — moreover, if the page offers
only patch links, it yields exactly 2 results of any kind in total. -/
theorem C1_patch_limit_invariant (env : Env) :
    (∀ (patch_limit : Nat) (dd imp : List String) (events : List PageEvent),
        (run env (initState patch_limit dd imp) events).1.patches.length ≤ patch_limit)
    ∧ (∀ (s : SpiderState) (u : String) (raw : List String),
        s.patch_limit ≤ s.patches.length → parse env s u raw = (s, []))
    ∧ (∀ (u : String) (imp : List String) (links : List String)
        (l1 l2 p1 p2 : String),
        l1 ∈ links → l2 ∈ links →
        env.is_patch l1 = some p1 → env.is_patch l2 = some p2 → p1 ≠ p2 →
        patchCount (parse env (initState 2 [] imp) u links).2 = 2
        ∧ ((∀ l ∈ links, ∃ p, env.is_patch l = some p) →
            (parse env (initState 2 [] imp) u links).2.length = 2)) := by
  refine ⟨?_, ?_, ?_⟩
  · intro patch_limit dd imp events
    exact run_len_le env (initState patch_limit dd imp) events (Nat.zero_le _)
  · intro s u raw h
    unfold parse
    exact parse_links_stop env u s _ h
  · intro u imp links l1 l2 p1 p2 h1 h2 hp1 hp2 hne
    have hext : extract_links env (initState 2 [] imp).deny_domains links = links :=
      extract_links_no_deny env links
    unfold parse
    rw [hext]
    have hkey : (parse_links env u (initState 2 [] imp) links).1.patches.length = 2 := by
      have hle : (parse_links env u (initState 2 [] imp) links).1.patches.length ≤ 2 :=
        parse_links_len_le env u _ links (Nat.zero_le 2)
      have hlim : (parse_links env u (initState 2 [] imp) links).1.patch_limit = 2 :=
        (parse_links_extends env u _ links).2.1
      have hq1 := parse_links_processed env u (initState 2 [] imp) links h1 hp1
      have hq2 := parse_links_processed env u (initState 2 [] imp) links h2 hp2
      rcases hq1 with hm1 | hge
      · rcases hq2 with hm2 | hge
        · have := two_mem_le_length hm1 hm2 hne
          omega
        · rw [hlim] at hge
          omega
      · rw [hlim] at hge
        omega
    have hcount : patchCount (parse_links env u (initState 2 [] imp) links).2 = 2 := by
      have hdelta := parse_links_len_eq env u (initState 2 [] imp) links
      have h0 : (initState 2 [] imp).patches.length = 0 := rfl
      rw [h0] at hdelta
      omega
    refine ⟨hcount, fun hall => ?_⟩
    have honly := parse_links_only_patches env u (initState 2 [] imp) links hall
    have hlen := length_eq_patchCount_of_only_patches _ honly
    omega

/-- Witness for C1: with the concrete environment, a page with the two
distinct patch links "p1", "p2" and a further ordinary link yields exactly 2
patches under `patch_limit = 2`; a state already at the limit parses to
nothing; and a run keeps the collected count within the limit. -/
theorem C1_patch_limit_invariant_witness :
    (run demoEnv (initState 2 [] []) [PageEvent.ordinary "pg" ["p1", "p2", "n1"]]).1.patches.length ≤ 2
    ∧ parse demoEnv ⟨["p1", "p2"], 2, [], []⟩ "pg" ["p1", "n1"] = (⟨["p1", "p2"], 2, [], []⟩, [])
    ∧ patchCount (parse demoEnv (initState 2 [] []) "pg" ["p1", "p2", "n1"]).2 = 2 :=
  ⟨(C1_patch_limit_invariant demoEnv).1 2 [] [] _,
    (C1_patch_limit_invariant demoEnv).2.1 ⟨["p1", "p2"], 2, [], []⟩ "pg" ["p1", "n1"]
      (by decide),
    ((C1_patch_limit_invariant demoEnv).2.2 "pg" [] ["p1", "p2", "n1"] "p1" "p2" "p1" "p2"
      (by decide) (by decide) (by decide) (by decide) (by decide)).1⟩

/-- C2 counterexample: the claim that a given `patch_link` is emitted at most
once per run regardless of the parse path is false. In a run whose first
page is an ordinary page carrying the patch link "p1" and whose second page
is a Debian tracker page whose `DebianParser` output also contains "p1",
the link "p1" is emitted twice: `parse_debian` appends and yields without
any membership check against `self.patches`. -/
theorem C2_duplicate_across_paths_counterexample :
    patchLinkCount
      (run demoEnv (initState 100 [] [])
        [PageEvent.ordinary "pg" ["p1"],
          PageEvent.debianPage [⟨"p1", "du"⟩]]).2 "p1" = 2 := by
  decide

/-- C2 (amended): across the pages of a run that are processed by the
ordinary `DefaultSpider.parse` path, a given `patch_link` value is emitted
at most once; the Debian-tracker path (`parse_debian`) performs no
deduplication against the visited patch links, so the at-most-once property
does not extend to runs that include it. -/
theorem C2_dedup_ordinary (env : Env) (patch_limit : Nat) (dd imp : List String)
    (events : List PageEvent) (v : String)
    (h : ∀ e ∈ events, e.isOrdinary = true) :
    patchLinkCount (run env (initState patch_limit dd imp) events).2 v ≤ 1 := by
  have hplc := run_plc_ordinary env (initState patch_limit dd imp) events v h
  have hone := memInd_le_one v (run env (initState patch_limit dd imp) events).1.patches
  have h0 : memInd v (initState patch_limit dd imp).patches = 0 := by
    simp [memInd, initState]
  omega

/-- Witness for the amended C2: a run of two ordinary pages both offering
the patch link "p1" emits it only once. -/
theorem C2_dedup_ordinary_witness :
    patchLinkCount
      (run demoEnv (initState 100 [] [])
        [PageEvent.ordinary "pa" ["p1"], PageEvent.ordinary "pb" ["p1"]]).2 "p1" ≤ 1 :=
  C2_dedup_ordinary demoEnv 100 [] []
    [PageEvent.ordinary "pa" ["p1"], PageEvent.ordinary "pb" ["p1"]] "p1" (by decide)

/-- C3: when a link classifies as a patch (the classifier returns the link),
the patch count is below `patch_limit`, and the link is not yet among the
visited patch links, the parse loop emits exactly one `Patch` with that
link as `patch_link` and the page URL as `reaching_path`, appends the link
to `self.patches`, and the collected count grows by one. -/
theorem C3_new_patch_emitted (env : Env) (u : String) (s : SpiderState)
    (link : String) (hp : env.is_patch link = some link)
    (hlt : s.patches.length < s.patch_limit) (hnin : link ∉ s.patches) :
    parse_step env u s link = (add_patch s link, [ParseOutput.patch ⟨link, u⟩])
    ∧ (add_patch s link).patches.length = s.patches.length + 1
    ∧ link ∈ (add_patch s link).patches := by
  refine ⟨?_, by simp [add_patch], by simp [add_patch]⟩
  simp [parse_step, hp, hlt, hnin]

/-- Witness for C3: the fresh patch link "p1" seen on page "pg" from an
empty state is emitted once and recorded. -/
theorem C3_new_patch_emitted_witness :
    parse_step demoEnv "pg" ⟨[], 5, [], []⟩ "p1" =
      (add_patch ⟨[], 5, [], []⟩ "p1", [ParseOutput.patch ⟨"p1", "pg"⟩])
    ∧ (add_patch ⟨[], 5, [], []⟩ "p1").patches.length = (([] : List String)).length + 1
    ∧ "p1" ∈ (add_patch ⟨[], 5, [], []⟩ "p1").patches :=
  C3_new_patch_emitted demoEnv "pg" ⟨[], 5, [], []⟩ "p1" (by decide) (by decide) (by decide)

/-- C4: `start_requests` yields exactly one request per entrypoint URL, so a
Specific-kind vulnerability with N entrypoint URLs produces exactly N
initial requests; a Generic-kind vulnerability (whose descriptor, per the
spec-modelled `create_vuln`, carries `entrypoint_URLs = [base_url]`)
produces exactly one request whose URL is `base_url`. -/
theorem C4_start_requests_counts :
    (∀ v : Vuln, (start_requests v).length = v.entrypoint_URLs.length)
    ∧ (∀ vuln_id base_url : String,
        (start_requests (createVulnGeneric vuln_id base_url)).map Prod.fst = [base_url]
        ∧ (start_requests (createVulnGeneric vuln_id base_url)).length = 1) := by
  constructor
  · intro v
    simp [start_requests]
  · intro vuln_id base_url
    constructor
    · simp only [start_requests, createVulnGeneric, List.map_cons, List.map_nil]
      split <;> rfl
    · simp [start_requests, createVulnGeneric]

/-- C5: `domain_priority` returns 1 exactly for URLs whose hostname is in
`important_domains` and 0 for every other URL, and every `Request` yielded
by `DefaultSpider.parse` carries priority `domain_priority` of its link. -/
theorem C5_request_priority (env : Env) :
    (∀ (imp : List String) (url : String),
        (domain_priority env imp url = 1 ↔
          ∃ d, env.hostname url = some d ∧ d ∈ imp)
        ∧ (domain_priority env imp url = 0 ∨ domain_priority env imp url = 1))
    ∧ (∀ (s : SpiderState) (u : String) (raw : List String) (link : String) (p : Nat),
        ParseOutput.request link p ∈ (parse env s u raw).2 →
        p = domain_priority env s.important_domains link) := by
  constructor
  · intro imp url
    rcases h : env.hostname url with - | d
    · have e : domain_priority env imp url = 0 := by
        simp [domain_priority, h]
      rw [e]
      refine ⟨⟨fun h1 => absurd h1 (by decide), ?_⟩, Or.inl rfl⟩
      rintro ⟨d, hd, -⟩
      exact Option.noConfusion hd
    · by_cases hm : d ∈ imp
      · have e : domain_priority env imp url = 1 := by
          simp [domain_priority, h, hm]
        rw [e]
        exact ⟨⟨fun _ => ⟨d, rfl, hm⟩, fun _ => rfl⟩, Or.inr rfl⟩
      · have e : domain_priority env imp url = 0 := by
          simp [domain_priority, h, hm]
        rw [e]
        refine ⟨⟨fun h1 => absurd h1 (by decide), ?_⟩, Or.inl rfl⟩
        rintro ⟨d', hd', hmem⟩
        obtain rfl := Option.some.inj hd'
        exact absurd hmem hm
  · intro s u raw link p hmem
    unfold parse at hmem
    exact (parse_links_request_mem env u s _ hmem).2

/-- Witness for C5: the non-priority link "n1" is requested with priority 0,
and with "imp.com" marked important, the link "i1" is requested with
priority 1. -/
theorem C5_request_priority_witness :
    (0 : Nat) = domain_priority demoEnv [] "n1"
    ∧ (1 : Nat) = domain_priority demoEnv ["imp.com"] "i1" :=
  ⟨(C5_request_priority demoEnv).2 (initState 5 [] []) "pg" ["n1"] "n1" 0 (by decide),
    (C5_request_priority demoEnv).2 ⟨[], 5, [], ["imp.com"]⟩ "pg" ["i1"] "i1" 1 (by decide)⟩

/-- C6: `DefaultSpider.parse` never emits a `Request` whose URL is a link
with a denied domain, and never emits a `Patch` except for a link that
survived the deny-domain filter: denied links are discarded by the link
extractor before classification or request generation. -/
theorem C6_deny_domains_filtered (env : Env) (s : SpiderState) (u : String)
    (raw : List String) :
    (∀ (link : String) (p : Nat),
        ParseOutput.request link p ∈ (parse env s u raw).2 →
        allowedHost env s.deny_domains link = true)
    ∧ (∀ q : Patch, ParseOutput.patch q ∈ (parse env s u raw).2 →
        ∃ link, allowedHost env s.deny_domains link = true
          ∧ env.is_patch link = some q.patch_link) := by
  constructor
  · intro link p hmem
    unfold parse at hmem
    have h1 := (parse_links_request_mem env u s _ hmem).1
    exact (List.mem_filter.mp h1).2
  · intro q hmem
    unfold parse at hmem
    obtain ⟨l, hl, hp, -⟩ := parse_links_patch_origin env u s _ hmem
    exact ⟨l, (List.mem_filter.mp hl).2, hp⟩

/-- Witness for C6: with "bad.com" denied, a page offering the denied link
"d1" next to "n1" and "p1" yields a request only for the allowed "n1" and a
patch only from the allowed "p1". -/
theorem C6_deny_domains_filtered_witness :
    allowedHost demoEnv ["bad.com"] "n1" = true
    ∧ ∃ link, allowedHost demoEnv ["bad.com"] link = true
        ∧ demoEnv.is_patch link = some "p1" :=
  ⟨(C6_deny_domains_filtered demoEnv ⟨[], 5, ["bad.com"], []⟩ "pg" ["d1", "n1"]).1
      "n1" 0 (by decide),
    (C6_deny_domains_filtered demoEnv ⟨[], 5, ["bad.com"], []⟩ "pg" ["d1", "p1"]).2
      ⟨"p1", "pg"⟩ (by decide)⟩

/-- C7: `determine_aliases` is idempotent — calling it a second time on the
same page content leaves the resolved-alias collection exactly as the first
call left it and emits no fetch requests at all the second time (in
particular none for generic advisories already in `pending_generic`). -/
theorem C7_determine_aliases_idempotent (resolve : String → Vuln)
    (st : AliasState) (page : AliasPage) :
    determine_aliases resolve (determine_aliases resolve st page).1 page =
      ((determine_aliases resolve st page).1, []) := by
  have hres : (determine_aliases resolve st page).1.resolved_aliases =
      (record_aliases resolve st page.specific_ids).resolved_aliases := by
    unfold determine_aliases
    exact request_generics_resolved resolve _ page.generic_ids
  have hrec : record_aliases resolve (determine_aliases resolve st page).1
      page.specific_ids = (determine_aliases resolve st page).1 := by
    apply record_aliases_noop
    intro i hi
    have h1 : i ∈ (record_aliases resolve st page.specific_ids).resolvedIds :=
      record_aliases_all resolve st page.specific_ids i hi
    unfold AliasState.resolvedIds at h1 ⊢
    rw [hres]
    exact h1
  show request_generics resolve
      (record_aliases resolve (determine_aliases resolve st page).1 page.specific_ids)
      page.generic_ids = ((determine_aliases resolve st page).1, [])
  rw [hrec]
  apply request_generics_noop
  intro g hg
  show g ∈ (determine_aliases resolve st page).1.pending_generic
  unfold determine_aliases
  exact request_generics_all resolve _ page.generic_ids g hg

/-- C8 counterexample: the claim that on an unrecognized vulnerability
identifier the program exits with a status communicating failure is false —
`src/patchfinder.py` prints the message but never sets an exit status, so
the interpreter exits with status 0 (the success status) on that path. -/
theorem C8_exit_status_counterexample : (patchfinder_main none).2.2 = 0 := rfl

/-- C8 (amended): when the identifier matches no known family the program
starts no crawl, prints the unrecognized-vulnerability message, and exits
without crashing — but with exit status 0, the same status as success; on
success it prints the completion message and exits 0. -/
theorem C8_cli_behaviour (v : Vuln) :
    patchfinder_main none =
      (false, "Can\x27t recognize that vulnerability.", 0)
    ∧ patchfinder_main (some v) = (true, "Crawling completed.", 0) :=
  ⟨rfl, rfl⟩

/-- C9: a link that classifies as a patch whose patch link is already among
the visited patches produces nothing at all while the limit is not reached:
no duplicate `Patch` item and no follow-up `Request`. -/
theorem C9_duplicate_patch_ignored (env : Env) (u : String) (s : SpiderState)
    (link p : String) (hp : env.is_patch link = some p) (hin : p ∈ s.patches)
    (hlt : s.patches.length < s.patch_limit) :
    parse_step env u s link = (s, []) := by
  simp [parse_step, hp, hlt, hin]

/-- Witness for C9: re-encountering the already-collected patch link "p1"
below the limit yields nothing and leaves the state unchanged. -/
theorem C9_duplicate_patch_ignored_witness :
    parse_step demoEnv "pg" ⟨["p1"], 5, [], []⟩ "p1" = (⟨["p1"], 5, [], []⟩, []) :=
  C9_duplicate_patch_ignored demoEnv "pg" ⟨["p1"], 5, [], []⟩ "p1" "p1"
    (by decide) (by decide) (by decide)

/-- C10: a response whose headers carry no `Content-Type` (and whose URL
selects no URL-based callback — `BaseSpider._callback_by_url` always
returns `None` in the base class) makes `BaseSpider.parse` yield nothing:
the callback resolves to `None` and the generator is empty. -/
theorem C10_no_content_type_yields_nothing (benv : BaseEnv) (r : HttpResponse)
    (h : r.content_type = none) : base_parse benv r = [] := by
  simp [base_parse, base_callback, callback_by_url, callback_by_content, h]

/-- Witness for C10: a concrete response without a `Content-Type` header
parses to the empty output. -/
theorem C10_no_content_type_yields_nothing_witness :
    base_parse demoBaseEnv ⟨"pg", none, "body"⟩ = [] :=
  C10_no_content_type_yields_nothing demoBaseEnv ⟨"pg", none, "body"⟩ rfl

end PatchFinder
